import Mathlib

/-!
Shallow embedding of `src/pcremodule.c` (the python-pcre binding module).

Byte buffers are `List Nat` (one element per byte), C `int` offsets are `Int`,
and the linked PCRE library -- which the module treats as an opaque black box --
is a record of query functions `PcreLib` over the compiled-code byte buffer.
-/

namespace PyPcre

/-- Decidable equality for `Except` results, so that concrete runs of the
embedded operations can be checked by `decide`. -/
instance {ε α : Type} [DecidableEq ε] [DecidableEq α] : DecidableEq (Except ε α) := fun a b =>
  match a, b with
  | .error x, .error y =>
      if h : x = y then isTrue (by rw [h]) else isFalse (by simp [h])
  | .ok x, .ok y =>
      if h : x = y then isTrue (by rw [h]) else isFalse (by simp [h])
  | .error _, .ok _ => isFalse (by simp)
  | .ok _, .error _ => isFalse (by simp)

/-- PCRE option bit PCRE_UTF8 (from pcre.h, used at lines 127 and 599). -/
def PCRE_UTF8 : Nat := 0x00000800

/-- PCRE option bit PCRE_NO_UTF8_CHECK (from pcre.h, set at line 128). -/
def PCRE_NO_UTF8_CHECK : Nat := 0x00002000

/-- PCRE_ERROR_NOMATCH return code of pcre_exec (from pcre.h). -/
def PCRE_ERROR_NOMATCH : Int := -1

/-- PCRE_ERROR_NOMEMORY return code of pcre_exec (from pcre.h). -/
def PCRE_ERROR_NOMEMORY : Int := -6

/-- PCRE_ERROR_MATCHLIMIT return code of pcre_exec (from pcre.h). -/
def PCRE_ERROR_MATCHLIMIT : Int := -8

/-- PCRE_ERROR_BADUTF8 return code of pcre_exec (from pcre.h). -/
def PCRE_ERROR_BADUTF8 : Int := -10

/-- PCRE_ERROR_RECURSIONLIMIT return code of pcre_exec (from pcre.h). -/
def PCRE_ERROR_RECURSIONLIMIT : Int := -21

/-- The Python exception kinds the module can raise.  `pcreError rc` is the
pcre.PCREError exception built at lines 416-421 carrying the error code,
`indexError` is PyExc_IndexError ("no such group"), `runtimeError` is
PyExc_RuntimeError ("bad span", line 907). -/
inductive PcreExc where
  | memoryError
  | noMatch
  | overflowError
  | pcreError (rc : Int)
  | indexError
  | runtimeError
  deriving DecidableEq

/-- set_pcre_error (lines 397-423): dispatch a PCRE error code to a Python
exception.  The switch maps PCRE_ERROR_NOMEMORY to MemoryError,
PCRE_ERROR_NOMATCH to pcre.NoMatch, compile error code 5 ("number too big in
curly-brace quantifier") to OverflowError, and everything else to pcre.PCREError. -/
def set_pcre_error (rc : Int) : PcreExc :=
  if rc = PCRE_ERROR_NOMEMORY then .memoryError
  else if rc = PCRE_ERROR_NOMATCH then .noMatch
  else if rc = 5 then .overflowError
  else .pcreError rc

/-- Byte `i` of buffer `s`.  Reads past the end give 0, matching the NUL
terminator of the Python bytes objects the module iterates over. -/
def byteAt (s : List Nat) (i : Nat) : Nat := s.getD i 0

/-- Negation of the ISUTF8(c) macro (line 340), i.e. ((c & 0xC0) == 0x80):
true exactly on UTF-8 continuation bytes. -/
def isCont (c : Nat) : Bool := (c &&& 0xC0) == 0x80

/-- One UTF8LOOPBODY iteration (lines 341-343, wide build): advance `i` past
one lead byte and up to three continuation bytes. -/
def utf8Step (s : List Nat) (i : Nat) : Nat :=
  if isCont (byteAt s (i + 1)) then
    if isCont (byteAt s (i + 2)) then
      if isCont (byteAt s (i + 3)) then i + 4 else i + 3
    else i + 2
  else i + 1

/-- Fuel-indexed unfolding of the while loop of
pypcre_string_byte_to_char_offsets.  Since `i` strictly increases each
iteration, `offset - i` iterations always suffice; `b2cLoop` supplies that
fuel and `b2cLoop_eq` proves the resulting exact while-loop equation, so the
fuel never truncates the loop. -/
def b2cGo (s : List Nat) (offset : Nat) : Nat → Nat → Nat → Nat × Nat
  | 0, i, charnum => (i, charnum)
  | fuel + 1, i, charnum =>
      if i < offset ∧ i < s.length then b2cGo s offset fuel (utf8Step s i) (charnum + 1)
      else (i, charnum)

/-- The while loop of pypcre_string_byte_to_char_offsets (lines 361-362 and
367-368): starting from state `(i, charnum)`, step through characters while
`i < offset` and `i < s.length`; returns the final `(i, charnum)`.
Its defining equation is `b2cLoop_eq` below. -/
def b2cLoop (s : List Nat) (offset i charnum : Nat) : Nat × Nat :=
  b2cGo s offset (offset - i) i charnum

/-- Fuel-indexed unfolding of the while loop of
pypcre_string_char_to_byte_offsets; `charnum` increases by one per iteration,
so `offset - charnum` iterations suffice. -/
def c2bGo (s : List Nat) (offset : Nat) : Nat → Nat → Nat → Nat × Nat
  | 0, i, charnum => (i, charnum)
  | fuel + 1, i, charnum =>
      if charnum < offset ∧ i < s.length then c2bGo s offset fuel (utf8Step s i) (charnum + 1)
      else (i, charnum)

/-- The while loop of pypcre_string_char_to_byte_offsets (lines 385-386 and
391-392): step through characters while `charnum < offset` and `i < s.length`.
Its defining equation is `c2bLoop_eq` below. -/
def c2bLoop (s : List Nat) (offset i charnum : Nat) : Nat × Nat :=
  c2bGo s offset (offset - charnum) i charnum

/-- One pointer argument of pypcre_string_byte_to_char_offsets: if the pointer
is non-NULL and the offset non-negative, run the loop from the carried state
and store the resulting character count; otherwise leave state and offset
untouched. -/
def b2cApply (s : List Nat) (st : Nat × Nat) (o : Option Int) : (Nat × Nat) × Option Int :=
  match o with
  | none => (st, none)
  | some p =>
      if 0 ≤ p then
        let st' := b2cLoop s p.toNat st.1 st.2
        (st', some (st'.2 : Int))
      else (st, some p)

/-- pypcre_string_byte_to_char_offsets (lines 352-371): convert UTF-8 byte
offsets `pos` and then `endpos` into character offsets, the second conversion
continuing from the loop state left by the first. -/
def pypcre_string_byte_to_char_offsets (s : List Nat) (pos endpos : Option Int) :
    Option Int × Option Int :=
  let r1 := b2cApply s (0, 0) pos
  let r2 := b2cApply s r1.1 endpos
  (r1.2, r2.2)

/-- One pointer argument of pypcre_string_char_to_byte_offsets: the stored
result is the byte index `i` instead of the character count. -/
def c2bApply (s : List Nat) (st : Nat × Nat) (o : Option Int) : (Nat × Nat) × Option Int :=
  match o with
  | none => (st, none)
  | some p =>
      if 0 ≤ p then
        let st' := c2bLoop s p.toNat st.1 st.2
        (st', some (st'.1 : Int))
      else (st, some p)

/-- pypcre_string_char_to_byte_offsets (lines 376-395): convert character
offsets `pos` and then `endpos` into UTF-8 byte offsets. -/
def pypcre_string_char_to_byte_offsets (s : List Nat) (pos endpos : Option Int) :
    Option Int × Option Int :=
  let r1 := c2bApply s (0, 0) pos
  let r2 := c2bApply s r1.1 endpos
  (r1.2, r2.2)

/-- Single-offset byte-to-character conversion (fresh loop state). -/
def byteToChar (s : List Nat) (o : Nat) : Nat := (b2cLoop s o 0 0).2

/-- Single-offset character-to-byte conversion (fresh loop state). -/
def charToByte (s : List Nat) (c : Nat) : Nat := (c2bLoop s c 0 0).1

/-- Number of characters the conversion loop counts in the whole buffer. -/
def numChars (s : List Nat) : Nat := byteToChar s s.length

/-- The inline Latin1 -> UTF-8 conversion loop of _string_get_from_bytes
(lines 163-171): each byte above 127 becomes the two bytes
(0xC0 | (c >> 6), 0x80 | (c & 0x3F)), each other byte is copied. -/
def latin1ToUtf8 : List Nat → List Nat
  | [] => []
  | c :: rest =>
      (if 127 < c then [0xC0 ||| (c >>> 6), 0x80 ||| (c &&& 0x3F)] else [c]) ++ latin1ToUtf8 rest

/-- Result of _string_get_from_bytes: the UTF-8 buffer handed to PCRE,
whether a new bytes object was allocated (`str->op != op` in the C), and the
updated options word. -/
structure EncodedString where
  string : List Nat
  newbuf : Bool
  options : Nat
  deriving DecidableEq

/-- _string_get_from_bytes (lines 118-176).  Without PCRE_UTF8 the module
sets PCRE_NO_UTF8_CHECK and counts non-ascii bytes; if there are none (or the
caller declared the bytes UTF-8) the input buffer is used as-is, otherwise a
new buffer holding the Latin1 -> UTF-8 re-encoding is allocated. -/
def _string_get_from_bytes (options : Nat) (bs : List Nat) : EncodedString :=
  let options' := if options &&& PCRE_UTF8 = 0 then options ||| PCRE_NO_UTF8_CHECK else options
  let count := if options &&& PCRE_UTF8 = 0 then (bs.filter fun c => decide (127 < c)).length else 0
  if count = 0 then ⟨bs, false, options'⟩ else ⟨latin1ToUtf8 bs, true, options'⟩

/-- The opaque linked PCRE library, as far as the module consults it about a
compiled-code buffer: the pcre_fullinfo return code (0 on success) and the
PCRE_INFO_SIZE, PCRE_INFO_CAPTURECOUNT and name-table
(PCRE_INFO_NAMECOUNT/NAMEENTRYSIZE/NAMETABLE, decoded to (group index, name)
entries) query results.  All are pure functions of the buffer bytes. -/
structure PcreLib where
  fullinfoRc : List Nat → Int
  infoSize : List Nat → Nat
  captureCount : List Nat → Nat
  nameTable : List Nat → List (Nat × String)

/-- PyPatternObject (lines 429-440): the compiled-code bytes, the capturing
group count and the name -> index mapping (groupindex dict, as an ordered
association list). -/
structure Pattern where
  code : List Nat
  groups : Nat
  groupindex : List (String × Nat)
  deriving DecidableEq

/-- make_groupindex (lines 497-559): walk the name-table entries in order,
rejecting an empty group name with error 84 and otherwise inserting
name -> index into the dict. -/
def make_groupindex : List (Nat × String) → Except PcreExc (List (String × Nat))
  | [] => .ok []
  | e :: rest =>
      if e.2 = "" then .error (set_pcre_error 84)
      else
        match make_groupindex rest with
        | .error err => .error err
        | .ok d => .ok ((e.2, e.1) :: d)

/-- Common tail of pattern_init (lines 619-646): query the capture count
(pcre_fullinfo, whose nonzero return is dispatched through set_pcre_error),
build the groupindex dict, and store all fields. -/
def pattern_setup (lib : PcreLib) (code : List Nat) : Except PcreExc Pattern :=
  if lib.fullinfoRc code = 0 then
    match make_groupindex (lib.nameTable code) with
    | .error e => .error e
    | .ok gi => .ok ⟨code, lib.captureCount code, gi⟩
  else .error (set_pcre_error (lib.fullinfoRc code))

/-- The loads branch of pattern_init (lines 577-588): the serialized bytes are
copied verbatim (pcre_malloc + memcpy) into the compiled-code buffer -- the
module performs no consistency validation of its own on them -- and then the
common tail runs. -/
def pattern_init_loads (lib : PcreLib) (loads : List Nat) : Except PcreExc Pattern :=
  pattern_setup lib loads

/-- The compile branch of pattern_init (lines 589-617), parametrized by the
pcre_compile2 outcome: on failure the (positive) compile error code is
dispatched through set_pcre_error; on success the common tail runs on the
compiled code. -/
def pattern_init_compile (lib : PcreLib) (r : Except (Int × Int) (List Nat)) :
    Except PcreExc Pattern :=
  match r with
  | .error ro => .error (set_pcre_error ro.1)
  | .ok code => pattern_setup lib code

/-- The error-position reporting of pattern_init (lines 603-608) for a bytes
pattern compiled with the given options: `o` is the byte offset into the
(possibly re-encoded) buffer returned by pcre_compile2; if the pattern was
re-encoded internally (str.op != pattern) it is converted to a character
offset before being put into the error message. -/
def compile_error_report (options : Nat) (bs : List Nat) (o : Int) : Int :=
  let str := _string_get_from_bytes options bs
  if str.newbuf then ((pypcre_string_byte_to_char_offsets str.string (some o) none).1).getD o
  else o

/-- pattern_dumps (lines 747-765): serialize a pattern as the first
PCRE_INFO_SIZE bytes of its compiled-code buffer. -/
def pattern_dumps (lib : PcreLib) (p : Pattern) : Except PcreExc (List Nat) :=
  if lib.fullinfoRc p.code = 0 then .ok (p.code.take (lib.infoSize p.code))
  else .error (set_pcre_error (lib.fullinfoRc p.code))

/-- pattern_richcompare (lines 827-856), == case, for two ready patterns:
equal sizes and byte-identical compiled programs.  (The C pointer-equality
shortcut self->code == other->code has no counterpart on model values.) -/
def pattern_richcompare_eq (lib : PcreLib) (a b : Pattern) : Except PcreExc Bool :=
  if lib.fullinfoRc a.code ≠ 0 then .error (set_pcre_error (lib.fullinfoRc a.code))
  else if lib.fullinfoRc b.code ≠ 0 then .error (set_pcre_error (lib.fullinfoRc b.code))
  else if lib.infoSize a.code ≠ lib.infoSize b.code then .ok false
  else .ok (decide (a.code.take (lib.infoSize a.code) = b.code.take (lib.infoSize b.code)))

/-- PyMatchObject (lines 862-872): the ovector of spans, the pattern group
count, whether the subject was re-encoded internally (subject != str.op), the
internal UTF-8 subject bytes, and the stored positions. -/
structure MatchData where
  ovector : List Int
  groups : Nat
  reencoded : Bool
  str : List Nat
  startpos : Int
  endpos : Int
  lastindex : Int
  deriving DecidableEq

/-- match_init (lines 949-1029) after the subject string has been extracted:
clamp negative `pos` to 0, clamp `endpos` into [0, str.length], raise NoMatch
when pos > endpos without running the engine, convert character offsets to
byte offsets when the subject was re-encoded, run pcre_exec (modelled as the
oracle `ex : startoffset -> size -> (rc, ovector)`), dispatch a negative
return through set_pcre_error, and otherwise store the fields, with
lastindex = rc - 1. -/
def match_init (ex : Int → Int → Int × List Int) (subjStr : List Nat) (reencoded : Bool)
    (groups : Nat) (pos0 endpos0 : Int) : Except PcreExc MatchData :=
  let len : Int := subjStr.length
  let pos := if pos0 < 0 then 0 else pos0
  let endpos := if endpos0 < 0 ∨ len < endpos0 then len else endpos0
  if endpos < pos then .error .noMatch
  else
    let conv :=
      if reencoded then pypcre_string_char_to_byte_offsets subjStr (some pos) (some endpos)
      else (some pos, some endpos)
    let startoffset := conv.1.getD 0
    let size := conv.2.getD 0
    let r := ex startoffset size
    if r.1 < 0 then .error (set_pcre_error r.1)
    else .ok ⟨r.2, groups, reencoded, subjStr, pos, endpos, r.1 - 1⟩

/-- match_lastindex_getter (lines 1218-1224): the stored lastindex when it is
strictly positive, None otherwise. -/
def match_lastindex_getter (m : MatchData) : Option Int :=
  if 0 < m.lastindex then some m.lastindex else none

/-- The sanity check of get_span (line 906): fires only when both pointers are
present, the start exceeds the end, and the end is non-negative. -/
def span_check : Option Int → Option Int → Bool
  | some p, some e => decide (e < p) && decide (0 ≤ e)
  | _, _ => false

/-- get_span (lines 892-918): bounds-check the group index, read the raw span
from the ovector, reject a bad span with RuntimeError, and convert byte
offsets to character offsets when the subject was re-encoded internally. -/
def get_span (m : MatchData) (index : Int) (wantPos wantEndpos : Bool) :
    Except PcreExc (Option Int × Option Int) :=
  if index < 0 ∨ (m.groups : Int) < index then .error .indexError
  else
    let pos : Option Int := if wantPos then some (m.ovector.getD (2 * index).toNat 0) else none
    let endpos : Option Int :=
      if wantEndpos then some (m.ovector.getD (2 * index + 1).toNat 0) else none
    if span_check pos endpos then .error .runtimeError
    else if m.reencoded then .ok (pypcre_string_byte_to_char_offsets m.str pos endpos)
    else .ok (pos, endpos)

/-- Result of get_slice: a slice subject[pos:endpos] or the default object. -/
inductive Sliced where
  | slice (a b : Int)
  | dflt
  deriving DecidableEq

/-- get_slice (lines 923-936): slice the subject with the group span when both
offsets are non-negative, else return the default object. -/
def get_slice (m : MatchData) (index : Int) : Except PcreExc Sliced :=
  match get_span m index true true with
  | .error e => .error e
  | .ok r =>
      match r.1, r.2 with
      | some p, some e => if 0 ≤ p ∧ 0 ≤ e then .ok (.slice p e) else .ok .dflt
      | _, _ => .ok .dflt
/-! Helper lemmas about the UTF-8 offset-conversion loops. -/

theorem utf8Step_lt (s : List Nat) (i : Nat) : i < utf8Step s i := by
  unfold utf8Step
  repeat' split
  all_goals omega

theorem byteAt_oob (s : List Nat) (i : Nat) (h : s.length ≤ i) : byteAt s i = 0 := by
  simp only [byteAt, List.getD]
  rw [List.get?_eq_none.mpr h]
  rfl

theorem isCont_byteAt_lt {s : List Nat} {j : Nat} (h : isCont (byteAt s j) = true) :
    j < s.length := by
  by_contra hj
  rw [byteAt_oob s j (by omega)] at h
  simp [isCont] at h

theorem utf8Step_le_length {s : List Nat} {i : Nat} (h : i < s.length) :
    utf8Step s i ≤ s.length := by
  unfold utf8Step
  split
  · next h1 =>
    have := isCont_byteAt_lt h1
    split
    · next h2 =>
      have := isCont_byteAt_lt h2
      split
      · next h3 =>
        have := isCont_byteAt_lt h3
        omega
      · omega
    · omega
  · omega

theorem b2cGo_fuel (s : List Nat) (offset : Nat) :
    ∀ f1 f2 i charnum, offset - i ≤ f1 → offset - i ≤ f2 →
      b2cGo s offset f1 i charnum = b2cGo s offset f2 i charnum := by
  intro f1
  induction f1 with
  | zero =>
      intro f2 i charnum h1 h2
      cases f2 with
      | zero => rfl
      | succ f2 =>
          simp only [b2cGo]
          rw [if_neg (by omega)]
  | succ f1 ih =>
      intro f2 i charnum h1 h2
      cases f2 with
      | zero =>
          simp only [b2cGo]
          rw [if_neg (by omega)]
      | succ f2 =>
          simp only [b2cGo]
          by_cases hg : i < offset ∧ i < s.length
          · rw [if_pos hg, if_pos hg]
            have := utf8Step_lt s i
            exact ih f2 _ _ (by omega) (by omega)
          · rw [if_neg hg, if_neg hg]

/-- The defining while-loop equation of `b2cLoop`, matching the C loop
`while ((i < offset) && (i < length)) UTF8LOOPBODY` exactly. -/
theorem b2cLoop_eq (s : List Nat) (offset i charnum : Nat) :
    b2cLoop s offset i charnum
      = if i < offset ∧ i < s.length then b2cLoop s offset (utf8Step s i) (charnum + 1)
        else (i, charnum) := by
  unfold b2cLoop
  by_cases hg : i < offset ∧ i < s.length
  · rw [if_pos hg]
    obtain ⟨f, hf⟩ : ∃ f, offset - i = f + 1 := ⟨offset - i - 1, by omega⟩
    rw [hf]
    simp only [b2cGo]
    rw [if_pos hg]
    have := utf8Step_lt s i
    exact b2cGo_fuel s offset f (offset - utf8Step s i) _ _ (by omega) (by omega)
  · rw [if_neg hg]
    cases hoi : offset - i with
    | zero => rfl
    | succ f =>
        simp only [b2cGo]
        rw [if_neg hg]

theorem c2bGo_fuel (s : List Nat) (offset : Nat) :
    ∀ f1 f2 i charnum, offset - charnum ≤ f1 → offset - charnum ≤ f2 →
      c2bGo s offset f1 i charnum = c2bGo s offset f2 i charnum := by
  intro f1
  induction f1 with
  | zero =>
      intro f2 i charnum h1 h2
      cases f2 with
      | zero => rfl
      | succ f2 =>
          simp only [c2bGo]
          rw [if_neg (by omega)]
  | succ f1 ih =>
      intro f2 i charnum h1 h2
      cases f2 with
      | zero =>
          simp only [c2bGo]
          rw [if_neg (by omega)]
      | succ f2 =>
          simp only [c2bGo]
          by_cases hg : charnum < offset ∧ i < s.length
          · rw [if_pos hg, if_pos hg]
            exact ih f2 _ _ (by omega) (by omega)
          · rw [if_neg hg, if_neg hg]

/-- The defining while-loop equation of `c2bLoop`, matching the C loop
`while ((charnum < offset) && (i < length)) UTF8LOOPBODY` exactly. -/
theorem c2bLoop_eq (s : List Nat) (offset i charnum : Nat) :
    c2bLoop s offset i charnum
      = if charnum < offset ∧ i < s.length then c2bLoop s offset (utf8Step s i) (charnum + 1)
        else (i, charnum) := by
  unfold c2bLoop
  by_cases hg : charnum < offset ∧ i < s.length
  · rw [if_pos hg]
    obtain ⟨f, hf⟩ : ∃ f, offset - charnum = f + 1 := ⟨offset - charnum - 1, by omega⟩
    rw [hf]
    simp only [c2bGo]
    rw [if_pos hg]
    exact c2bGo_fuel s offset f (offset - (charnum + 1)) _ _ (by omega) (by omega)
  · rw [if_neg hg]
    cases hoi : offset - charnum with
    | zero => rfl
    | succ f =>
        simp only [c2bGo]
        rw [if_neg hg]

theorem b2cLoop_i_ge (s : List Nat) (offset i charnum : Nat) :
    i ≤ (b2cLoop s offset i charnum).1 := by
  rw [b2cLoop_eq]
  split
  · next h =>
    have h1 := utf8Step_lt s i
    have h2 := b2cLoop_i_ge s offset (utf8Step s i) (charnum + 1)
    omega
  · simp
termination_by offset - i
decreasing_by
  have := utf8Step_lt s i
  omega

theorem b2cLoop_charnum_ge (s : List Nat) (offset i charnum : Nat) :
    charnum ≤ (b2cLoop s offset i charnum).2 := by
  rw [b2cLoop_eq]
  split
  · next h =>
    have h2 := b2cLoop_charnum_ge s offset (utf8Step s i) (charnum + 1)
    omega
  · simp
termination_by offset - i
decreasing_by
  have := utf8Step_lt s i
  omega

theorem b2cLoop_split (s : List Nat) (o1 o2 i charnum : Nat) (h : o1 ≤ o2) :
    b2cLoop s o2 i charnum
      = b2cLoop s o2 (b2cLoop s o1 i charnum).1 (b2cLoop s o1 i charnum).2 := by
  by_cases h1 : i < o1 ∧ i < s.length
  · have e1 : b2cLoop s o1 i charnum = b2cLoop s o1 (utf8Step s i) (charnum + 1) := by
      rw [b2cLoop_eq]
      simp [h1]
    have e2 : b2cLoop s o2 i charnum = b2cLoop s o2 (utf8Step s i) (charnum + 1) := by
      rw [b2cLoop_eq]
      simp [h1.2]
      intro hc
      omega
    rw [e1, e2]
    exact b2cLoop_split s o1 o2 (utf8Step s i) (charnum + 1) h
  · have e1 : b2cLoop s o1 i charnum = (i, charnum) := by
      rw [b2cLoop_eq]
      simp [h1]
    rw [e1]
termination_by o1 - i
decreasing_by
  have := utf8Step_lt s i
  omega

theorem byteToChar_mono (s : List Nat) (o1 o2 : Nat) (h : o1 ≤ o2) :
    byteToChar s o1 ≤ byteToChar s o2 := by
  unfold byteToChar
  rw [b2cLoop_split s o1 o2 0 0 h]
  exact b2cLoop_charnum_ge s o2 _ _

theorem c2bLoop_i_ge (s : List Nat) (offset i charnum : Nat) :
    i ≤ (c2bLoop s offset i charnum).1 := by
  rw [c2bLoop_eq]
  split
  · next h =>
    have h1 := utf8Step_lt s i
    have h2 := c2bLoop_i_ge s offset (utf8Step s i) (charnum + 1)
    omega
  · simp
termination_by offset - charnum

theorem c2bLoop_charnum_le {s : List Nat} {offset i charnum : Nat} (h : charnum ≤ offset) :
    (c2bLoop s offset i charnum).2 ≤ offset := by
  rw [c2bLoop_eq]
  split
  · next hg => exact c2bLoop_charnum_le (by omega)
  · simpa using h
termination_by offset - charnum

theorem c2bLoop_split (s : List Nat) (o1 o2 i charnum : Nat) (h : o1 ≤ o2) :
    c2bLoop s o2 i charnum
      = c2bLoop s o2 (c2bLoop s o1 i charnum).1 (c2bLoop s o1 i charnum).2 := by
  by_cases h1 : charnum < o1 ∧ i < s.length
  · have e1 : c2bLoop s o1 i charnum = c2bLoop s o1 (utf8Step s i) (charnum + 1) := by
      rw [c2bLoop_eq]
      simp [h1]
    have e2 : c2bLoop s o2 i charnum = c2bLoop s o2 (utf8Step s i) (charnum + 1) := by
      rw [c2bLoop_eq]
      simp [h1.2]
      intro hc2
      omega
    rw [e1, e2]
    exact c2bLoop_split s o1 o2 (utf8Step s i) (charnum + 1) h
  · have e1 : c2bLoop s o1 i charnum = (i, charnum) := by
      rw [c2bLoop_eq]
      simp [h1]
    rw [e1]
termination_by o1 - charnum
decreasing_by omega

theorem charToByte_mono (s : List Nat) (c1 c2 : Nat) (h : c1 ≤ c2) :
    charToByte s c1 ≤ charToByte s c2 := by
  unfold charToByte
  rw [c2bLoop_split s c1 c2 0 0 h]
  exact c2bLoop_i_ge s c2 _ _

theorem c2b_then_b2c (s : List Nat) (n i charnum : Nat)
    (hres : (c2bLoop s n i charnum).2 = n) :
    b2cLoop s (c2bLoop s n i charnum).1 i charnum = c2bLoop s n i charnum := by
  by_cases h1 : charnum < n ∧ i < s.length
  · have e1 : c2bLoop s n i charnum = c2bLoop s n (utf8Step s i) (charnum + 1) := by
      rw [c2bLoop_eq]
      simp [h1]
    rw [e1] at hres ⊢
    have ih := c2b_then_b2c s n (utf8Step s i) (charnum + 1) hres
    have hi : utf8Step s i ≤ (c2bLoop s n (utf8Step s i) (charnum + 1)).1 :=
      c2bLoop_i_ge s n _ _
    have hstep := utf8Step_lt s i
    have e2 : b2cLoop s (c2bLoop s n (utf8Step s i) (charnum + 1)).1 i charnum
        = b2cLoop s (c2bLoop s n (utf8Step s i) (charnum + 1)).1
            (utf8Step s i) (charnum + 1) := by
      rw [b2cLoop_eq]
      simp [h1.2]
      intro hc2
      omega
    rw [e2]
    exact ih
  · have e1 : c2bLoop s n i charnum = (i, charnum) := by
      rw [c2bLoop_eq]
      simp [h1]
    rw [e1] at hres ⊢
    rw [b2cLoop_eq]
    simp
termination_by n - charnum
decreasing_by omega

theorem c2bLoop_reaches (s : List Nat) (n i charnum : Nat) (hcn : charnum ≤ n)
    (hnum : n ≤ (b2cLoop s s.length i charnum).2) :
    (c2bLoop s n i charnum).2 = n := by
  by_cases he : charnum = n
  · rw [c2bLoop_eq]
    simp [he]
  · have hlt : charnum < n := by omega
    by_cases hl : i < s.length
    · have e1 : c2bLoop s n i charnum = c2bLoop s n (utf8Step s i) (charnum + 1) := by
        rw [c2bLoop_eq]
        simp [hlt, hl]
      have e2 : b2cLoop s s.length i charnum
          = b2cLoop s s.length (utf8Step s i) (charnum + 1) := by
        rw [b2cLoop_eq]
        simp [hl]
      rw [e2] at hnum
      rw [e1]
      exact c2bLoop_reaches s n (utf8Step s i) (charnum + 1) (by omega) hnum
    · exfalso
      have e2 : b2cLoop s s.length i charnum = (i, charnum) := by
        rw [b2cLoop_eq]
        simp [hl]
      rw [e2] at hnum
      omega
termination_by n - charnum
decreasing_by omega

theorem charToByte_reaches (s : List Nat) (c : Nat) (h : c ≤ numChars s) :
    (c2bLoop s c 0 0).2 = c :=
  c2bLoop_reaches s c 0 0 (by omega) h

theorem byteToChar_charToByte (s : List Nat) (c : Nat) (h : c ≤ numChars s) :
    byteToChar s (charToByte s c) = c := by
  have hres := charToByte_reaches s c h
  have := c2b_then_b2c s c 0 0 hres
  unfold byteToChar charToByte
  rw [this, hres]

/-! Helper lemmas about the inline Latin1 -> UTF-8 encoder. -/

theorem latin1_append (a b : List Nat) :
    latin1ToUtf8 (a ++ b) = latin1ToUtf8 a ++ latin1ToUtf8 b := by
  induction a with
  | nil => simp [latin1ToUtf8]
  | cons c rest ih => simp [latin1ToUtf8, ih]

theorem latin1_length (bs : List Nat) :
    (latin1ToUtf8 bs).length = bs.length + (bs.filter fun c => decide (127 < c)).length := by
  induction bs with
  | nil => simp [latin1ToUtf8]
  | cons c rest ih =>
      by_cases hc : 127 < c
      · simp only [latin1ToUtf8, if_pos hc, List.filter_cons, decide_eq_true hc,
          List.length_append, List.length_cons, ih]
        simp
        omega
      · simp only [latin1ToUtf8, if_neg hc, List.filter_cons, List.length_append,
          List.length_cons, ih]
        have : decide (127 < c) = false := decide_eq_false hc
        simp [this]
        omega

theorem latin1_ascii_id (bs : List Nat) (h : ∀ c ∈ bs, ¬127 < c) :
    latin1ToUtf8 bs = bs := by
  induction bs with
  | nil => rfl
  | cons c rest ih =>
      have hc : ¬127 < c := h c (by simp)
      simp only [latin1ToUtf8, if_neg hc, List.singleton_append]
      rw [ih fun x hx => h x (by simp [hx])]

theorem byteAt_cons_zero (a : Nat) (l : List Nat) : byteAt (a :: l) 0 = a := rfl

theorem byteAt_append (pre tail : List Nat) (j : Nat) :
    byteAt (pre ++ tail) (pre.length + j) = byteAt tail j := by
  simp only [byteAt, List.getD]
  rw [List.get?_append_right (by omega)]
  simp

theorem isCont_le127 {c : Nat} (h : c ≤ 127) : isCont c = false := by
  simp only [isCont, beq_eq_false_iff_ne, ne_eq]
  have h2 : c &&& 0xC0 ≤ c := Nat.and_le_left
  omega

theorem isCont_lead {c : Nat} (h : c < 256) : isCont (0xC0 ||| (c >>> 6)) = false := by
  have hx : c >>> 6 < 4 := by
    rw [Nat.shiftRight_eq_div_pow]
    have h64 : (2 : Nat) ^ 6 = 64 := by norm_num
    rw [h64]
    omega
  generalize c >>> 6 = x at hx
  interval_cases x <;> decide

theorem isCont_contByte (c : Nat) : isCont (0x80 ||| (c &&& 0x3F)) = true := by
  have hy : c &&& 0x3F ≤ 0x3F := Nat.and_le_right
  generalize c &&& 0x3F = y at hy
  interval_cases y <;> decide

theorem latin1_head_not_cont (bs : List Nat) (h256 : ∀ c ∈ bs, c < 256) :
    isCont (byteAt (latin1ToUtf8 bs) 0) = false := by
  cases bs with
  | nil => decide
  | cons c rest =>
      have hc : c < 256 := h256 c (by simp)
      show isCont (byteAt ((if 127 < c then [0xC0 ||| (c >>> 6), 0x80 ||| (c &&& 0x3F)]
        else [c]) ++ latin1ToUtf8 rest) 0) = false
      by_cases h127 : 127 < c
      · rw [if_pos h127]
        rw [List.cons_append, byteAt_cons_zero]
        exact isCont_lead hc
      · rw [if_neg h127]
        rw [List.singleton_append, byteAt_cons_zero]
        exact isCont_le127 (by omega)

theorem latin1_take_succ (bs : List Nat) (k : Nat) (hk : k < bs.length) :
    latin1ToUtf8 (bs.take (k + 1))
      = latin1ToUtf8 (bs.take k)
        ++ (if 127 < bs.getD k 0 then
              [0xC0 ||| (bs.getD k 0 >>> 6), 0x80 ||| (bs.getD k 0 &&& 0x3F)]
            else [bs.getD k 0]) := by
  rw [List.take_succ]
  have hg : bs[k]? = some (bs.getD k 0) := by
    rw [List.getD_eq_getElem _ _ hk]
    exact List.getElem?_eq_getElem hk
  rw [hg]
  show latin1ToUtf8 (bs.take k ++ [bs.getD k 0]) = _
  rw [latin1_append]
  generalize bs.getD k 0 = c0
  show _ ++ ((if 127 < c0 then _ else _) ++ latin1ToUtf8 []) = _
  simp [latin1ToUtf8]

theorem latin1_step (bs : List Nat) (h256 : ∀ c ∈ bs, c < 256) (k : Nat)
    (hk : k < bs.length) :
    utf8Step (latin1ToUtf8 bs) ((latin1ToUtf8 (bs.take k)).length)
      = (latin1ToUtf8 (bs.take (k + 1))).length := by
  have hdrop : bs.drop k = bs.getD k 0 :: bs.drop (k + 1) := by
    rw [List.getD_eq_getElem _ _ hk]
    exact List.drop_eq_getElem_cons hk
  have hc : bs.getD k 0 < 256 := by
    apply h256
    rw [List.getD_eq_getElem _ _ hk]
    exact List.getElem_mem hk
  have hdrop256 : ∀ c ∈ bs.drop (k + 1), c < 256 := fun c hcm =>
    h256 c (List.drop_subset (k + 1) bs hcm)
  have hsucc := latin1_take_succ bs k hk
  generalize hget : bs.getD k 0 = c0 at hdrop hc hsucc
  have hbs : latin1ToUtf8 bs
      = latin1ToUtf8 (bs.take k) ++ latin1ToUtf8 (c0 :: bs.drop (k + 1)) := by
    conv_lhs => rw [← List.take_append_drop k bs, latin1_append, hdrop]
  rw [hsucc, List.length_append]
  by_cases h127 : 127 < c0
  · have henc : latin1ToUtf8 (c0 :: bs.drop (k + 1))
        = (0xC0 ||| (c0 >>> 6)) :: (0x80 ||| (c0 &&& 0x3F))
            :: latin1ToUtf8 (bs.drop (k + 1)) := by
      show (if 127 < c0 then _ else _) ++ _ = _
      rw [if_pos h127]
      rfl
    have h1 : byteAt (latin1ToUtf8 bs) ((latin1ToUtf8 (bs.take k)).length + 1)
        = 0x80 ||| (c0 &&& 0x3F) := by
      rw [hbs, byteAt_append, henc]
      rfl
    have h2 : byteAt (latin1ToUtf8 bs) ((latin1ToUtf8 (bs.take k)).length + 2)
        = byteAt (latin1ToUtf8 (bs.drop (k + 1))) 0 := by
      rw [hbs, byteAt_append, henc]
      rfl
    unfold utf8Step
    rw [h1, h2, isCont_contByte, latin1_head_not_cont _ hdrop256]
    rw [if_pos h127]
    simp
  · have henc : latin1ToUtf8 (c0 :: bs.drop (k + 1))
        = c0 :: latin1ToUtf8 (bs.drop (k + 1)) := by
      show (if 127 < c0 then _ else _) ++ _ = _
      rw [if_neg h127]
      rfl
    have h1 : byteAt (latin1ToUtf8 bs) ((latin1ToUtf8 (bs.take k)).length + 1)
        = byteAt (latin1ToUtf8 (bs.drop (k + 1))) 0 := by
      rw [hbs, byteAt_append, henc]
      rfl
    unfold utf8Step
    rw [h1, latin1_head_not_cont _ hdrop256]
    rw [if_neg h127]
    simp

theorem latin1_take_le (bs : List Nat) (k : Nat) :
    (latin1ToUtf8 (bs.take k)).length ≤ (latin1ToUtf8 bs).length := by
  conv_rhs => rw [← List.take_append_drop k bs, latin1_append]
  simp

theorem b2c_latin1_boundary (bs : List Nat) (h256 : ∀ c ∈ bs, c < 256) (k : Nat)
    (hk : k ≤ bs.length) :
    b2cLoop (latin1ToUtf8 bs) ((latin1ToUtf8 (bs.take k)).length) 0 0
      = ((latin1ToUtf8 (bs.take k)).length, k) := by
  induction k with
  | zero =>
      rw [b2cLoop_eq]
      simp [latin1ToUtf8]
  | succ k ih =>
      have hklt : k < bs.length := by omega
      have ihk := ih (by omega)
      have hstep := latin1_step bs h256 k hklt
      have hsucc := latin1_take_succ bs k hklt
      have ho12 : (latin1ToUtf8 (bs.take k)).length
          < (latin1ToUtf8 (bs.take (k + 1))).length := by
        rw [hsucc, List.length_append]
        generalize bs.getD k 0 = c0
        by_cases h127 : 127 < c0
        · rw [if_pos h127]
          simp
        · rw [if_neg h127]
          simp
      have ho2len : (latin1ToUtf8 (bs.take (k + 1))).length ≤ (latin1ToUtf8 bs).length :=
        latin1_take_le bs (k + 1)
      rw [b2cLoop_split (latin1ToUtf8 bs) ((latin1ToUtf8 (bs.take k)).length)
            ((latin1ToUtf8 (bs.take (k + 1))).length) 0 0 (by omega), ihk]
      rw [b2cLoop_eq]
      rw [if_pos (by constructor <;> omega), hstep, b2cLoop_eq]
      simp

theorem latin1_eq_join (bs : List Nat) :
    latin1ToUtf8 bs
      = (bs.map fun c =>
          if 127 < c then [0xC0 ||| (c >>> 6), 0x80 ||| (c &&& 0x3F)] else [c]).flatten := by
  induction bs with
  | nil => rfl
  | cons c rest ih => simp [latin1ToUtf8, ih]

/-! Claim theorems. -/

/-- Claim C9: for bytes input processed without the UTF-8 flag,
_string_get_from_bytes re-encodes Latin-1 to UTF-8: every byte maps through
the per-byte rule (bytes at most 127 to themselves, larger bytes to the pair
(0xC0 | (c >> 6), 0x80 | (c & 0x3F))), the output length is the input length
plus the number of bytes above 127, and an all-ascii input buffer is used
unchanged (no new buffer). -/
theorem c9_latin1_utf8_encoding (options : Nat) (bs : List Nat)
    (h : options &&& PCRE_UTF8 = 0) :
    (_string_get_from_bytes options bs).string = latin1ToUtf8 bs
    ∧ latin1ToUtf8 bs
        = (bs.map fun c =>
            if 127 < c then [0xC0 ||| (c >>> 6), 0x80 ||| (c &&& 0x3F)] else [c]).flatten
    ∧ (_string_get_from_bytes options bs).string.length
        = bs.length + (bs.filter fun c => decide (127 < c)).length
    ∧ ((∀ c ∈ bs, ¬127 < c) →
        _string_get_from_bytes options bs = ⟨bs, false, options ||| PCRE_NO_UTF8_CHECK⟩) := by
  unfold _string_get_from_bytes
  rw [if_pos h, if_pos h]
  by_cases hcnt : (bs.filter fun c => decide (127 < c)).length = 0
  · have hnil : (bs.filter fun c => decide (127 < c)) = [] := by
      cases hfe : bs.filter fun c => decide (127 < c)
      · rfl
      · rw [hfe] at hcnt
        simp at hcnt
    have hascii : ∀ c ∈ bs, ¬127 < c := by
      intro c hcm
      have := List.filter_eq_nil_iff.mp hnil c hcm
      simpa using this
    rw [if_pos hcnt]
    refine ⟨(latin1_ascii_id bs hascii).symm, latin1_eq_join bs, ?_, fun _ => rfl⟩
    simp [hcnt]
  · rw [if_neg hcnt]
    refine ⟨rfl, latin1_eq_join bs, ?_, fun hascii => ?_⟩
    · exact latin1_length bs
    · exfalso
      apply hcnt
      have hnil : (bs.filter fun c => decide (127 < c)) = [] := by
        apply List.filter_eq_nil_iff.mpr
        intro c hcm
        simpa using hascii c hcm
      rw [hnil]
      rfl

/-- Witness for C9 at concrete inputs: the buffer [104, 200] is re-encoded
through the per-byte rule, and the all-ascii buffer [104] is used unchanged. -/
theorem c9_latin1_utf8_encoding_witness :
    (_string_get_from_bytes 0 [104, 200]).string = latin1ToUtf8 [104, 200]
    ∧ _string_get_from_bytes 0 [104] = ⟨[104], false, 0 ||| PCRE_NO_UTF8_CHECK⟩ :=
  ⟨(c9_latin1_utf8_encoding 0 [104, 200] (by decide)).1,
   (c9_latin1_utf8_encoding 0 [104] (by decide)).2.2.2 (by decide)⟩

/-- Claim C10: the byte-to-character and character-to-byte conversions of an
internally-encoded UTF-8 string are mutually inverse on character boundaries
-- a valid character offset converted to a byte offset converts back to
itself, and a byte offset on a character boundary converted to a character
offset converts back to itself -- and both conversions are monotonically
non-decreasing. -/
theorem c10_offset_conversion_inverse_mono (s : List Nat) :
    (∀ c, c ≤ numChars s → byteToChar s (charToByte s c) = c)
    ∧ (∀ o, (∃ c, c ≤ numChars s ∧ charToByte s c = o) →
        charToByte s (byteToChar s o) = o)
    ∧ (∀ o1 o2, o1 ≤ o2 → byteToChar s o1 ≤ byteToChar s o2)
    ∧ (∀ c1 c2, c1 ≤ c2 → charToByte s c1 ≤ charToByte s c2) := by
  refine ⟨fun c hc => byteToChar_charToByte s c hc, ?_, byteToChar_mono s, charToByte_mono s⟩
  rintro o ⟨c, hc, rfl⟩
  rw [byteToChar_charToByte s c hc]

/-- Witness for C10 on the UTF-8 buffer of "a-e-acute-b": round trips at
character offset 2 and byte offset 3, and both monotonicity conjuncts. -/
theorem c10_offset_conversion_inverse_mono_witness :
    byteToChar [97, 195, 169, 98] (charToByte [97, 195, 169, 98] 2) = 2
    ∧ charToByte [97, 195, 169, 98] (byteToChar [97, 195, 169, 98] 3) = 3
    ∧ byteToChar [97, 195, 169, 98] 1 ≤ byteToChar [97, 195, 169, 98] 3
    ∧ charToByte [97, 195, 169, 98] 1 ≤ charToByte [97, 195, 169, 98] 2 :=
  ⟨(c10_offset_conversion_inverse_mono [97, 195, 169, 98]).1 2 (by decide),
   (c10_offset_conversion_inverse_mono [97, 195, 169, 98]).2.1 3 ⟨2, by decide, by decide⟩,
   (c10_offset_conversion_inverse_mono [97, 195, 169, 98]).2.2.1 1 3 (by decide),
   (c10_offset_conversion_inverse_mono [97, 195, 169, 98]).2.2.2 1 2 (by decide)⟩

/-- Claim C3: the no-match outcome is distinguished from true execution
errors: set_pcre_error maps PCRE_ERROR_NOMATCH to the NoMatch exception and
PCRE_ERROR_NOMEMORY to MemoryError, while the resource-limit codes
(PCRE_ERROR_MATCHLIMIT, PCRE_ERROR_RECURSIONLIMIT) and every other negative
engine code raise PCREError; and match_init dispatches every negative
pcre_exec return through set_pcre_error. -/
theorem c3_exec_error_discrimination :
    set_pcre_error PCRE_ERROR_NOMATCH = PcreExc.noMatch
    ∧ set_pcre_error PCRE_ERROR_NOMEMORY = PcreExc.memoryError
    ∧ set_pcre_error PCRE_ERROR_MATCHLIMIT = PcreExc.pcreError PCRE_ERROR_MATCHLIMIT
    ∧ set_pcre_error PCRE_ERROR_RECURSIONLIMIT = PcreExc.pcreError PCRE_ERROR_RECURSIONLIMIT
    ∧ (∀ rc : Int, rc < 0 → rc ≠ PCRE_ERROR_NOMATCH → rc ≠ PCRE_ERROR_NOMEMORY →
        set_pcre_error rc = PcreExc.pcreError rc)
    ∧ (∀ (rc : Int) (ov : List Int) (subjStr : List Nat) (reencoded : Bool)
        (groups : Nat) (pos0 endpos0 : Int),
        rc < 0 →
        ¬((if endpos0 < 0 ∨ (subjStr.length : Int) < endpos0 then (subjStr.length : Int)
            else endpos0) < (if pos0 < 0 then 0 else pos0)) →
        match_init (fun _ _ => (rc, ov)) subjStr reencoded groups pos0 endpos0
          = .error (set_pcre_error rc)) := by
  refine ⟨by decide, by decide, by decide, by decide, ?_, ?_⟩
  · intro rc hneg h1 h6
    unfold set_pcre_error PCRE_ERROR_NOMEMORY PCRE_ERROR_NOMATCH at *
    rw [if_neg h6, if_neg h1, if_neg (by omega)]
  · intro rc ov subjStr reencoded groups pos0 endpos0 hneg hb
    simp only [match_init]
    rw [if_neg hb, if_pos hneg]

/-- Witness for C3: a generic negative engine code maps to PCREError and a
resource-limit return from the engine is dispatched through set_pcre_error. -/
theorem c3_exec_error_discrimination_witness :
    set_pcre_error (-3) = PcreExc.pcreError (-3)
    ∧ match_init (fun _ _ => (PCRE_ERROR_MATCHLIMIT, [])) [97] false 0 0 1
        = .error (set_pcre_error PCRE_ERROR_MATCHLIMIT) :=
  ⟨c3_exec_error_discrimination.2.2.2.2.1 (-3) (by decide) (by decide) (by decide),
   c3_exec_error_discrimination.2.2.2.2.2 PCRE_ERROR_MATCHLIMIT [] [97] false 0 0 1
     (by decide) (by decide)⟩

/-- Claim C4: whenever the bounds-adjusted start position exceeds the
bounds-adjusted end position (negative pos clamped to 0, endpos clamped into
[0, internal subject length]), match_init reports NoMatch and the result does
not depend on the matching engine (quantified over every oracle), i.e. the
engine is never invoked. -/
theorem c4_pos_gt_endpos_nomatch (ex : Int → Int → Int × List Int) (subjStr : List Nat)
    (reencoded : Bool) (groups : Nat) (pos0 endpos0 : Int)
    (hb : (if endpos0 < 0 ∨ (subjStr.length : Int) < endpos0 then (subjStr.length : Int)
            else endpos0) < (if pos0 < 0 then 0 else pos0)) :
    match_init ex subjStr reencoded groups pos0 endpos0 = .error PcreExc.noMatch := by
  simp only [match_init]
  rw [if_pos hb]

/-- Witness for C4: pos 3 exceeds endpos 1 on a length-2 subject, so the
outcome is NoMatch for an arbitrary concrete engine oracle. -/
theorem c4_pos_gt_endpos_nomatch_witness :
    match_init (fun _ _ => (1, [0, 0])) [97, 98] false 0 3 1 = .error PcreExc.noMatch :=
  c4_pos_gt_endpos_nomatch (fun _ _ => (1, [0, 0])) [97, 98] false 0 3 1 (by decide)

/-- Claim C5: a compilation failure with PCRE compile error code 5 ("number
too big in curly-brace quantifier") is reported as OverflowError, while every
other positive compile error code is reported as the generic PCREError. -/
theorem c5_quantifier_overflow_distinguished :
    (∀ (lib : PcreLib) (o : Int),
        pattern_init_compile lib (.error (5, o)) = .error PcreExc.overflowError)
    ∧ (∀ (lib : PcreLib) (rc o : Int), 0 < rc → rc ≠ 5 →
        pattern_init_compile lib (.error (rc, o)) = .error (PcreExc.pcreError rc)) := by
  constructor
  · intro lib o
    rfl
  · intro lib rc o hpos h5
    show Except.error (set_pcre_error rc) = _
    unfold set_pcre_error PCRE_ERROR_NOMEMORY PCRE_ERROR_NOMATCH
    rw [if_neg (by omega), if_neg (by omega), if_neg h5]

/-- Witness for C5: compile error 5 gives OverflowError, compile error 14
("missing parenthesis") gives PCREError, under a concrete library record. -/
theorem c5_quantifier_overflow_distinguished_witness :
    pattern_init_compile ⟨fun _ => 0, fun c => c.length, fun _ => 0, fun _ => []⟩
        (.error (5, 2)) = .error PcreExc.overflowError
    ∧ pattern_init_compile ⟨fun _ => 0, fun c => c.length, fun _ => 0, fun _ => []⟩
        (.error (14, 0)) = .error (PcreExc.pcreError 14) :=
  ⟨c5_quantifier_overflow_distinguished.1 ⟨fun _ => 0, fun c => c.length, fun _ => 0, fun _ => []⟩ 2,
   c5_quantifier_overflow_distinguished.2 ⟨fun _ => 0, fun c => c.length, fun _ => 0, fun _ => []⟩
     14 0 (by decide) (by decide)⟩

/-- Claim C7: on a successful match the stored lastindex is the engine return
count minus one (the index of the highest-numbered participating group), and
the lastindex attribute reads as None exactly when the stored value is not
strictly positive (only group 0 matched). -/
theorem c7_lastindex_semantics (rc : Int) (ov : List Int) (subjStr : List Nat)
    (reencoded : Bool) (groups : Nat) (pos0 endpos0 : Int)
    (hb : ¬((if endpos0 < 0 ∨ (subjStr.length : Int) < endpos0 then (subjStr.length : Int)
            else endpos0) < (if pos0 < 0 then 0 else pos0)))
    (hrc : 0 ≤ rc) :
    ∃ m, match_init (fun _ _ => (rc, ov)) subjStr reencoded groups pos0 endpos0 = .ok m
      ∧ m.lastindex = rc - 1
      ∧ match_lastindex_getter m = (if 0 < rc - 1 then some (rc - 1) else none) := by
  simp only [match_init]
  rw [if_neg hb, if_neg (by omega)]
  exact ⟨_, rfl, rfl, rfl⟩

/-- Witness for C7: an engine return of 3 stores lastindex 2 and the getter
reads it back; applied at a concrete match. -/
theorem c7_lastindex_semantics_witness :
    ∃ m, match_init (fun _ _ => (3, [0, 2, 0, 1, 1, 2])) [97, 98] false 2 (-1) (-1) = .ok m
      ∧ m.lastindex = 3 - 1
      ∧ match_lastindex_getter m = (if 0 < (3 : Int) - 1 then some ((3 : Int) - 1) else none) :=
  c7_lastindex_semantics 3 [0, 2, 0, 1, 1, 2] [97, 98] false 2 (-1) (-1) (by decide) (by decide)

/-- The two-pointer byte-to-character conversion in closed form when both
pointers are present. -/
theorem byte_to_char_pair (s : List Nat) (p0 e0 : Int) :
    pypcre_string_byte_to_char_offsets s (some p0) (some e0)
      = (if 0 ≤ p0 then some ((b2cLoop s p0.toNat 0 0).2 : Int) else some p0,
         if 0 ≤ e0 then
           some ((b2cLoop s e0.toNat (if 0 ≤ p0 then (b2cLoop s p0.toNat 0 0).1 else 0)
              (if 0 ≤ p0 then (b2cLoop s p0.toNat 0 0).2 else 0)).2 : Int)
         else some e0) := by
  unfold pypcre_string_byte_to_char_offsets b2cApply
  by_cases hp : 0 ≤ p0 <;> by_cases he : 0 ≤ e0 <;> simp [hp, he]

/-- The single-pointer byte-to-character conversion in closed form. -/
theorem byte_to_char_single (s : List Nat) (p0 : Int) :
    pypcre_string_byte_to_char_offsets s (some p0) none
      = (if 0 ≤ p0 then some ((b2cLoop s p0.toNat 0 0).2 : Int) else some p0, none) := by
  unfold pypcre_string_byte_to_char_offsets b2cApply
  by_cases hp : 0 ≤ p0 <;> simp [hp]

/-- get_span with both pointers present, with the lets expanded. -/
theorem get_span_both (m : MatchData) (index : Int) :
    get_span m index true true
      = if index < 0 ∨ (m.groups : Int) < index then .error .indexError
        else if span_check (some (m.ovector.getD (2 * index).toNat 0))
              (some (m.ovector.getD (2 * index + 1).toNat 0)) then .error .runtimeError
        else if m.reencoded then
          .ok (pypcre_string_byte_to_char_offsets m.str
            (some (m.ovector.getD (2 * index).toNat 0))
            (some (m.ovector.getD (2 * index + 1).toNat 0)))
        else .ok (some (m.ovector.getD (2 * index).toNat 0),
          some (m.ovector.getD (2 * index + 1).toNat 0)) := rfl

/-- Claim C2: for a bytes pattern compiled without the UTF-8 flag, the error
offset put into the compile-error message is a character index into the
caller's original pattern text: for every character boundary k of the
original bytes, the byte offset of that boundary in the (possibly re-encoded)
buffer is reported as k, whether or not re-encoding took place. -/
theorem c2_compile_error_offset_in_chars (options : Nat) (bs : List Nat)
    (hopts : options &&& PCRE_UTF8 = 0) (h256 : ∀ c ∈ bs, c < 256) (k : Nat)
    (hk : k ≤ bs.length) :
    compile_error_report options bs ((latin1ToUtf8 (bs.take k)).length : Int) = k := by
  unfold compile_error_report _string_get_from_bytes
  rw [if_pos hopts, if_pos hopts]
  by_cases hcnt : (bs.filter fun c => decide (127 < c)).length = 0
  · rw [if_pos hcnt]
    have hnil : (bs.filter fun c => decide (127 < c)) = [] := by
      cases hfe : bs.filter fun c => decide (127 < c)
      · rfl
      · rw [hfe] at hcnt
        simp at hcnt
    have hascii : ∀ c ∈ bs.take k, ¬127 < c := by
      intro c hcm
      have hmem : c ∈ bs := List.mem_of_mem_take hcm
      have := List.filter_eq_nil_iff.mp hnil c hmem
      simpa using this
    show ((latin1ToUtf8 (bs.take k)).length : Int) = (k : Int)
    rw [latin1_ascii_id _ hascii, List.length_take, min_eq_left hk]
  · rw [if_neg hcnt]
    show ((pypcre_string_byte_to_char_offsets (latin1ToUtf8 bs)
        (some ((latin1ToUtf8 (bs.take k)).length : Int)) none).1).getD
        ((latin1ToUtf8 (bs.take k)).length : Int) = (k : Int)
    rw [byte_to_char_single]
    rw [if_pos (by positivity)]
    simp only [Option.getD_some, Int.toNat_natCast]
    rw [b2c_latin1_boundary bs h256 k hk]

/-- Witness for C2: the pattern bytes [200, 97] are re-encoded to three UTF-8
bytes; the byte offset 2 of the boundary after the first character is
reported as character offset 1. -/
theorem c2_compile_error_offset_in_chars_witness :
    compile_error_report 0 [200, 97] ((latin1ToUtf8 ([200, 97].take 1)).length : Int) = 1 :=
  c2_compile_error_offset_in_chars 0 [200, 97] (by decide) (by decide) 1 (by decide)

/-- Claim C8: every span get_span returns with a non-negative end satisfies
start at most end; a raw ovector pair with start greater than a non-negative
end is rejected with RuntimeError instead of being returned; and the sentinel
pair (-1, -1) of an unmatched group makes get_slice return the default object
rather than a slice. -/
theorem c8_span_invariant :
    (∀ (m : MatchData) (index s e : Int),
        get_span m index true true = .ok (some s, some e) → 0 ≤ e → s ≤ e)
    ∧ (∀ (m : MatchData) (index : Int), 0 ≤ index → index ≤ (m.groups : Int) →
        m.ovector.getD (2 * index + 1).toNat 0 < m.ovector.getD (2 * index).toNat 0 →
        0 ≤ m.ovector.getD (2 * index + 1).toNat 0 →
        get_span m index true true = .error PcreExc.runtimeError)
    ∧ (∀ (m : MatchData) (index : Int), 0 ≤ index → index ≤ (m.groups : Int) →
        m.ovector.getD (2 * index).toNat 0 = -1 →
        m.ovector.getD (2 * index + 1).toNat 0 = -1 →
        get_slice m index = .ok Sliced.dflt) := by
  refine ⟨?_, ?_, ?_⟩
  · intro m index s e hok he
    rw [get_span_both] at hok
    by_cases hidx : index < 0 ∨ (m.groups : Int) < index
    · rw [if_pos hidx] at hok
      exact absurd hok (by simp)
    · rw [if_neg hidx] at hok
      set p0 := m.ovector.getD (2 * index).toNat 0 with hp0
      set e0 := m.ovector.getD (2 * index + 1).toNat 0 with he0
      by_cases hchk : span_check (some p0) (some e0) = true
      · rw [if_pos hchk] at hok
        exact absurd hok (by simp)
      · have hsan : ¬(e0 < p0 ∧ 0 ≤ e0) := by
          simpa [span_check] using hchk
        rw [if_neg hchk] at hok
        by_cases hre : m.reencoded = true
        · rw [if_pos hre, byte_to_char_pair] at hok
          by_cases hp : 0 ≤ p0 <;> by_cases heo : 0 ≤ e0
          · rw [if_pos hp, if_pos heo, if_pos hp, if_pos hp] at hok
            simp only [Except.ok.injEq, Prod.mk.injEq, Option.some.injEq] at hok
            obtain ⟨hs, he2⟩ := hok
            have hmono := b2cLoop_charnum_ge m.str e0.toNat
              (b2cLoop m.str p0.toNat 0 0).1 (b2cLoop m.str p0.toNat 0 0).2
            rw [← hs, ← he2]
            exact_mod_cast hmono
          · rw [if_pos hp, if_neg heo] at hok
            simp only [Except.ok.injEq, Prod.mk.injEq, Option.some.injEq] at hok
            obtain ⟨hs, he2⟩ := hok
            omega
          · rw [if_neg hp, if_pos heo, if_neg hp, if_neg hp] at hok
            simp only [Except.ok.injEq, Prod.mk.injEq, Option.some.injEq] at hok
            obtain ⟨hs, he2⟩ := hok
            have hcast : (0 : Int) ≤ ((b2cLoop m.str e0.toNat 0 0).2 : Int) := by positivity
            omega
          · rw [if_neg hp, if_neg heo] at hok
            simp only [Except.ok.injEq, Prod.mk.injEq, Option.some.injEq] at hok
            obtain ⟨hs, he2⟩ := hok
            omega
        · rw [if_neg hre] at hok
          simp only [Except.ok.injEq, Prod.mk.injEq, Option.some.injEq] at hok
          obtain ⟨hs, he2⟩ := hok
          omega
  · intro m index h0 hg hbad hpos
    rw [get_span_both]
    rw [if_neg (by omega)]
    rw [if_pos (by simp only [span_check]; rw [decide_eq_true hbad, decide_eq_true hpos]; rfl)]
  · intro m index h0 hg hpm1 hem1
    have hspan : get_span m index true true = .ok (some (-1), some (-1)) := by
      rw [get_span_both, if_neg (by omega), hpm1, hem1, if_neg (by decide)]
      by_cases hre : m.reencoded = true
      · rw [if_pos hre, byte_to_char_pair]
        norm_num
      · rw [if_neg hre]
    unfold get_slice
    rw [hspan]
    norm_num

/-- Witness for C8: a well-formed span satisfies the invariant, a corrupted
ovector pair (5, 2) is rejected with RuntimeError, and the (-1, -1) sentinel
yields the default object from get_slice. -/
theorem c8_span_invariant_witness :
    ((0 : Int) ≤ 2)
    ∧ get_span ⟨[0, 1, 5, 2], 1, false, [97, 98], 0, 2, 0⟩ 1 true true
        = .error PcreExc.runtimeError
    ∧ get_slice ⟨[0, 2, -1, -1], 1, false, [97, 98], 0, 2, 0⟩ 1 = .ok Sliced.dflt :=
  ⟨c8_span_invariant.1 ⟨[0, 2, -1, -1], 1, false, [97, 98], 0, 2, 0⟩ 0 0 2
     (by decide) (by decide),
   c8_span_invariant.2.1 ⟨[0, 1, 5, 2], 1, false, [97, 98], 0, 2, 0⟩ 1
     (by decide) (by decide) (by decide) (by decide),
   c8_span_invariant.2.2 ⟨[0, 2, -1, -1], 1, false, [97, 98], 0, 2, 0⟩ 1
     (by decide) (by decide) (by decide) (by decide)⟩

theorem make_groupindex_ok (entries : List (Nat × String)) (h : ∀ e ∈ entries, e.2 ≠ "") :
    make_groupindex entries = .ok (entries.map fun e => (e.2, e.1)) := by
  induction entries with
  | nil => rfl
  | cons e rest ih =>
      have he : e.2 ≠ "" := h e (by simp)
      have hrest := ih fun x hx => h x (by simp [hx])
      unfold make_groupindex
      rw [if_neg he, hrest]
      rfl

/-- Claim C1 counterexample: the loads path accepts malformed serialized
input instead of failing with a format error.  With a library whose info
queries succeed on the bytes [7, 7, 7] but report a name table carrying group
index 300 although the capture count is 0 -- violating the
internal-consistency condition the claim requires to be checked -- the bytes
are installed verbatim as the compiled program, with no error of any kind. -/
theorem c1_loads_accepts_malformed :
    pattern_init_loads ⟨fun _ => 0, fun c => c.length, fun _ => 0, fun _ => [(300, "x")]⟩
        [7, 7, 7]
      = .ok ⟨[7, 7, 7], 0, [("x", 300)]⟩ := by
  decide

/-- Claim C1 (amended): the loads branch of pattern_init performs no
internal-consistency validation of its own: the serialized bytes are copied
verbatim into the compiled-code buffer, and whenever the external library's
info queries succeed and no group name is empty, the pattern is accepted with
exactly the input bytes as its program and the name table taken as-is (group
indices are never checked against the capture count, and no format-error
exception exists in the module). -/
theorem c1_loads_copies_verbatim (lib : PcreLib) (loads : List Nat)
    (hok : lib.fullinfoRc loads = 0)
    (hnames : ∀ e ∈ lib.nameTable loads, e.2 ≠ "") :
    pattern_init_loads lib loads
      = .ok ⟨loads, lib.captureCount loads,
          (lib.nameTable loads).map fun e => (e.2, e.1)⟩ := by
  unfold pattern_init_loads pattern_setup
  rw [if_pos hok, make_groupindex_ok _ hnames]

/-- Witness for C1 (amended) at a concrete library and byte string. -/
theorem c1_loads_copies_verbatim_witness :
    pattern_init_loads ⟨fun _ => 0, fun c => c.length, fun _ => 0, fun _ => [(300, "x")]⟩ [9]
      = .ok ⟨[9], 0, [("x", 300)]⟩ :=
  c1_loads_copies_verbatim
    ⟨fun _ => 0, fun c => c.length, fun _ => 0, fun _ => [(300, "x")]⟩ [9]
    (by decide) (by decide)

/-- Claim C6: the dumps/loads round trip reproduces the pattern: for a
pattern produced by pattern_setup whose PCRE_INFO_SIZE equals its buffer
length, dumps yields the code bytes, and loading them yields a pattern that
compares equal under pattern_richcompare_eq (same size, byte-identical
program) with the same group count and the same named-group table. -/
theorem c6_dumps_loads_roundtrip (lib : PcreLib) (p : Pattern) (d : List Nat)
    (hwf : pattern_setup lib p.code = .ok p)
    (hsize : lib.infoSize p.code = p.code.length)
    (hd : pattern_dumps lib p = .ok d) :
    ∃ q, pattern_init_loads lib d = .ok q
      ∧ pattern_richcompare_eq lib p q = .ok true
      ∧ q.groups = p.groups ∧ q.groupindex = p.groupindex := by
  have hrc : lib.fullinfoRc p.code = 0 := by
    by_contra hne
    unfold pattern_setup at hwf
    rw [if_neg hne] at hwf
    exact absurd hwf (by simp)
  have hdd : d = p.code := by
    unfold pattern_dumps at hd
    rw [if_pos hrc] at hd
    simp only [Except.ok.injEq] at hd
    rw [hsize, List.take_length] at hd
    exact hd.symm
  subst hdd
  refine ⟨p, hwf, ?_, rfl, rfl⟩
  unfold pattern_richcompare_eq
  rw [if_neg (by simp [hrc]), if_neg (by simp [hrc]), if_neg (by simp)]
  simp

/-- Witness for C6 at a concrete library and pattern. -/
theorem c6_dumps_loads_roundtrip_witness :
    ∃ q, pattern_init_loads ⟨fun _ => 0, fun c => c.length, fun _ => 2, fun _ => [(1, "a")]⟩
          [1, 2, 3] = .ok q
      ∧ pattern_richcompare_eq ⟨fun _ => 0, fun c => c.length, fun _ => 2, fun _ => [(1, "a")]⟩
          ⟨[1, 2, 3], 2, [("a", 1)]⟩ q = .ok true
      ∧ q.groups = Pattern.groups ⟨[1, 2, 3], 2, [("a", 1)]⟩
      ∧ q.groupindex = Pattern.groupindex ⟨[1, 2, 3], 2, [("a", 1)]⟩ :=
  c6_dumps_loads_roundtrip ⟨fun _ => 0, fun c => c.length, fun _ => 2, fun _ => [(1, "a")]⟩
    ⟨[1, 2, 3], 2, [("a", 1)]⟩ [1, 2, 3] (by decide) (by decide) (by decide)

end PyPcre
